import Mathlib

/-!
Verification development for the file-identify repository (Rust).

The definitions below are a shallow embedding of `src/lib.rs`,
`src/tags.rs` and `src/interpreters.rs`.  Bytes are modelled as `Nat`
(values below 256 in every real stream), byte streams as `List Nat`,
tag sets (`HashSet<&'static str>` in the source) as `Finset String`,
and fallible operations as `Except`.

The static lookup tables (the repository's `extensions.rs`, which is
not present under `src/`) are treated as injected mappings
`String → Finset String`, exactly as the specification describes them
("supplied as an injected mapping", section 1 and 6); the classifier
and filename-resolution functions are parameterised by them.
-/

deriving instance DecidableEq for Except

namespace FileIdentify

/-- Tag sets: the source uses `HashSet<&'static str>`; an unordered
duplicate-free collection of strings is a `Finset String`. -/
abbrev TagSet := Finset String

/-- A byte reader: either the underlying read fails (`error`) or the
stream's bytes are available in order.  Models the `R: Read` arguments
of `is_text` and `parse_shebang`. -/
abbrev ReaderM := Except Unit (List Nat)

/-! ## Content sniffer (`is_text`, lib.rs lines 726-744) -/

/-- Membership in the `text_chars` set built in `is_text`:
bytes 7,8,9,10,11,12,13,27, then `0x20..0x7F` (half-open), then
`0x80..=0xFF` (inclusive). -/
def isTextByte (b : Nat) : Bool :=
  b = 7 || b = 8 || b = 9 || b = 10 || b = 11 || b = 12 || b = 13 || b = 27
    || (decide (0x20 ≤ b) && decide (b < 0x7F))
    || (decide (0x80 ≤ b) && decide (b ≤ 0xFF))

/-- Embedding of `is_text` (lib.rs 726): one `read` into a 1024-byte
buffer (modelled as taking the first 1024 bytes of the stream), then
every byte read must be in the text set.  A failing read propagates
(the `?` on `reader.read`). -/
def is_text (reader : ReaderM) : Except Unit Bool :=
  match reader with
  | .error e => .error e
  | .ok bytes => .ok ((bytes.take 1024).all isTextByte)

/-! ## Shebang parser (`parse_shebang`, lib.rs 828-908) -/

/-- Embedding of `read_until(b'\n')`: the bytes up to and including the
first newline, or the whole stream if it has none. -/
def readFirstLineBytes : List Nat → List Nat
  | [] => []
  | b :: bs => if b = 10 then [10] else b :: readFirstLineBytes bs

/-- Pop a single trailing byte `x` if present (the `ends_with` / `pop`
pairs for `\n` and `\r` in `parse_shebang`). -/
def stripTrailByte (x : Nat) (l : List Nat) : List Nat :=
  if l.getLast? = some x then l.dropLast else l

/-- Continuation byte test for the UTF-8 decoder below. -/
def isCont (b : Nat) : Bool := decide (0x80 ≤ b) && decide (b < 0xC0)

/-- Modelled from the spec and Rust's standard library:
`String::from_utf8` used by `parse_shebang` (lib.rs 861).  Strict UTF-8
decoding of a byte list into the list of decoded scalar values:
rejects stray continuation bytes, overlong encodings, surrogates and
values above `0x10FFFF`, exactly as Rust's validator does. -/
def utf8Decode : List Nat → Option (List Nat)
  | [] => some []
  | b :: bs =>
    if b < 0x80 then (utf8Decode bs).map (fun r => b :: r)
    else if b < 0xC2 then none
    else if b < 0xE0 then
      match bs with
      | c1 :: bs2 =>
        if isCont c1 then
          (utf8Decode bs2).map (fun r => ((b - 0xC0) * 0x40 + (c1 - 0x80)) :: r)
        else none
      | [] => none
    else if b < 0xF0 then
      match bs with
      | c1 :: c2 :: bs3 =>
        if isCont c1 && isCont c2
            && (decide (b ≠ 0xE0) || decide (0xA0 ≤ c1))
            && (decide (b ≠ 0xED) || decide (c1 < 0xA0)) then
          (utf8Decode bs3).map
            (fun r => ((b - 0xE0) * 0x1000 + (c1 - 0x80) * 0x40 + (c2 - 0x80)) :: r)
        else none
      | _ => none
    else if b < 0xF5 then
      match bs with
      | c1 :: c2 :: c3 :: bs4 =>
        if isCont c1 && isCont c2 && isCont c3
            && (decide (b ≠ 0xF0) || decide (0x90 ≤ c1))
            && (decide (b ≠ 0xF4) || decide (c1 < 0x90)) then
          (utf8Decode bs4).map
            (fun r => ((b - 0xF0) * 0x40000 + (c1 - 0x80) * 0x1000
                        + (c2 - 0x80) * 0x40 + (c3 - 0x80)) :: r)
        else none
      | _ => none
    else none

/-- Rust `char::is_whitespace` (the Unicode `White_Space` property) on
a scalar value, used by `str::trim` and `str::split_whitespace`. -/
def isWsCp (c : Nat) : Bool :=
  c = 0x09 || c = 0x0A || c = 0x0B || c = 0x0C || c = 0x0D || c = 0x20
    || c = 0x85 || c = 0xA0 || c = 0x1680
    || (decide (0x2000 ≤ c) && decide (c ≤ 0x200A))
    || c = 0x2028 || c = 0x2029 || c = 0x202F || c = 0x205F || c = 0x3000

/-- Rust `char::is_control` (Unicode category Cc) on a scalar value. -/
def isControlCp (c : Nat) : Bool :=
  decide (c < 0x20) || (decide (0x7F ≤ c) && decide (c ≤ 0x9F))

/-- Rust `str::trim` over decoded scalar values. -/
def trimCps (l : List Nat) : List Nat :=
  ((l.dropWhile isWsCp).reverse.dropWhile isWsCp).reverse

/-- Worker for `split_whitespace`: `cur` is the current token,
reversed. -/
def splitWsGo : List Nat → List Nat → List (List Nat)
  | [], cur => if cur = [] then [] else [cur.reverse]
  | c :: rest, cur =>
    if isWsCp c then
      if cur = [] then splitWsGo rest [] else cur.reverse :: splitWsGo rest []
    else splitWsGo rest (c :: cur)

/-- Rust `str::split_whitespace` over decoded scalar values: maximal
runs of non-whitespace, no empty tokens. -/
def splitWhitespaceCps (l : List Nat) : List (List Nat) := splitWsGo l []

/-- Rebuild a `String` from ASCII scalar values (every call site has
already checked that all values are below 128). -/
def cpsToString (l : List Nat) : String := String.mk (l.map Char.ofNat)

/-- The `/usr/bin/env` / `-S` unwrapping of the token list
(lib.rs 882-898): exactly the `cmd` computation of `parse_shebang`. -/
def envUnwrap : List String → List String
  | [] => []
  | p0 :: rest =>
    if p0 = "/usr/bin/env" then
      match rest with
      | [] => []
      | p1 :: rest2 => if p1 = "-S" then rest2 else p1 :: rest2
    else p0 :: rest

/-- The tail of `parse_shebang` after a successful UTF-8 decode of
the first line (lib.rs 866-907): drop the marker, trim, reject
non-ASCII or non-tab control characters, split on whitespace and
unwrap `env`. -/
def processDecoded (cps : List Nat) : List String :=
  let sheb := trimCps (cps.drop 2)
  if sheb.any (fun c => decide (0x80 ≤ c) || (isControlCp c && c ≠ 9)) then []
  else
    let parts := (splitWhitespaceCps sheb).map cpsToString
    if parts = [] then [] else envUnwrap parts

/-- The pure part of `parse_shebang` applied to the first line's raw
bytes (newline included when present): strip `\n` then `\r`, require
the `#!` marker, truncate to 1024 bytes, decode UTF-8, then process
the decoded line. -/
def processFirstLine (line0 : List Nat) : List String :=
  let line1 := stripTrailByte 13 (stripTrailByte 10 line0)
  if line1.length < 2 ∨ line1.take 2 ≠ [35, 33] then []
  else
    match utf8Decode (line1.take 1024) with
    | none => []
    | some cps => processDecoded cps

/-- Shebang parsing over a whole byte stream: `read_until` returning
`Ok(0)` (empty stream) gives the empty command, otherwise the first
line is processed. -/
def parseShebangBytes (stream : List Nat) : List String :=
  if stream = [] then [] else processFirstLine (readFirstLineBytes stream)

/-- Embedding of `parse_shebang` (lib.rs 828).  Note the
`Err(_) => return Ok(ShebangTuple::new())` arm at lib.rs 847: a failing
read is absorbed into an `Ok` empty command, it is not propagated. -/
def parse_shebang (reader : ReaderM) : Except Unit (List String) :=
  match reader with
  | .error _ => .ok []
  | .ok stream => .ok (parseShebangBytes stream)

/-! ## Filename resolution (`tags_from_filename`, lib.rs 580-608) -/

/-- Worker for single-character splitting; `cur` is the current piece,
reversed. -/
def splitCharGo (sep : Char) : List Char → List Char → List String
  | [], cur => [String.mk cur.reverse]
  | c :: rest, cur =>
    if c = sep then String.mk cur.reverse :: splitCharGo sep rest []
    else splitCharGo sep rest (c :: cur)

/-- Rust `str::split(sep)` for a single-character separator: the
pieces between occurrences of `sep`, empty pieces kept, at least one
piece always produced. -/
def splitOnChar (sep : Char) (s : String) : List String :=
  splitCharGo sep s.data []

/-- Rust `str::to_lowercase` restricted to ASCII letters (the case
fold applied to extensions before table lookup; every table key and
every input used in this development is ASCII). -/
def toLowerAscii (s : String) : String :=
  String.mk (s.data.map fun c => if 'A' ≤ c ∧ c ≤ 'Z' then Char.ofNat (c.toNat + 32) else c)

/-- Characters after the last dot of a list, if the list contains a
dot at all. -/
def afterLastDot : List Char → Option (List Char)
  | [] => none
  | c :: rest =>
    match afterLastDot rest with
    | some r => some r
    | none => if c = '.' then some rest else none

/-- The final path component of a string (the characters after the
last slash; the whole string when there is no slash). -/
def lastComponent (s : String) : List Char :=
  (s.data.reverse.takeWhile (fun c => c ≠ '/')).reverse

/-- Modelled from the spec and Rust's standard library:
`Path::new(filename).extension()` as used at lib.rs 593.  The
extension of the final path component: `none` when the component is
empty, a bare `.` or `..`, or contains no dot past its first
character; otherwise the text after the final dot (a dot in the
leading position does not start an extension). -/
def rustExtension (s : String) : Option String :=
  match lastComponent s with
  | [] => none
  | ['.'] => none
  | ['.', '.'] => none
  | _ :: rest => (afterLastDot rest).map (fun e => String.mk e)

/-- The special-name loop of `tags_from_filename` (lib.rs 584-590):
walk the candidate list, and on the first candidate whose name-table
entry is non-empty, extend the accumulated tags with it and stop. -/
def nameLoop (nT : String → TagSet) : List String → TagSet → TagSet
  | [], tags => tags
  | p :: ps, tags =>
    let nt := nT p
    if nt = ∅ then nameLoop nT ps tags else tags ∪ nt

/-- Embedding of `tags_from_filename` (lib.rs 580), parameterised by
the three injected tables: special names `nT`, built-in extensions
`eT`, and binary-check-only extensions `bT`.  The candidate list of
the name loop is `iter::once(filename).chain(filename.split('.'))`;
afterwards the case-folded extension is looked up in `eT` and, only
when that entry is empty, in `bT`. -/
def tags_from_filename (nT eT bT : String → TagSet) (filename : String) : TagSet :=
  let tags : TagSet := ∅
  let tags := nameLoop nT (filename :: splitOnChar '.' filename) tags
  match rustExtension filename with
  | none => tags
  | some ext =>
    let extLower := toLowerAscii ext
    let extTags := eT extLower
    if extTags = ∅ then
      let binTags := bT extLower
      if binTags = ∅ then tags else tags ∪ binTags
    else tags ∪ extTags

/-! ## Interpreter resolver (`tags_from_interpreter`, lib.rs 641-661,
and `interpreters.rs`) -/

/-- The `INTERPRETERS` table of `interpreters.rs`, in insertion
order. -/
def INTERPRETERS : List (String × TagSet) :=
  [("ash", {"shell", "ash"}),
   ("awk", {"awk"}),
   ("bash", {"shell", "bash"}),
   ("bats", {"shell", "bash", "bats"}),
   ("cbsd", {"shell", "cbsd"}),
   ("csh", {"shell", "csh"}),
   ("dash", {"shell", "dash"}),
   ("expect", {"expect"}),
   ("ksh", {"shell", "ksh"}),
   ("node", {"javascript"}),
   ("nodejs", {"javascript"}),
   ("perl", {"perl"}),
   ("php", {"php"}),
   ("php7", {"php", "php7"}),
   ("php8", {"php", "php8"}),
   ("python", {"python"}),
   ("python2", {"python", "python2"}),
   ("python3", {"python", "python3"}),
   ("ruby", {"ruby"}),
   ("sh", {"shell", "sh"}),
   ("tcsh", {"shell", "tcsh"}),
   ("zsh", {"shell", "zsh"})]

/-- Modelled from the spec: the accessor `get_interpreter_tags`
(declared in lib.rs 187, body not present under `src/`): a plain
lookup in the `INTERPRETERS` map, empty set on a miss ("interpreter
name → tag list", spec section 6). -/
def get_interpreter_tags (s : String) : TagSet :=
  (((INTERPRETERS.find? (fun p => p.1 = s)).map Prod.snd).getD ∅)

/-- Characters before the last dot of a list (Rust
`current[..pos]` with `pos = current.rfind('.')`), if a dot exists. -/
def beforeLastDot : List Char → Option (List Char)
  | [] => none
  | c :: rest =>
    match beforeLastDot rest with
    | some r => some (c :: r)
    | none => if c = '.' then some [] else none

/-- The version-stripping `while` loop of `tags_from_interpreter`
(lib.rs 646-658), fuel-indexed so that it is structurally recursive:
each iteration either stops or shortens the string at its last dot, so
`length + 1` fuel always suffices. -/
def interpLoop (iT : String → TagSet) : Nat → List Char → TagSet
  | 0, _ => ∅
  | fuel + 1, cs =>
    if cs = [] then ∅
    else
      let t := iT (String.mk cs)
      if t = ∅ then
        match beforeLastDot cs with
        | some pre => interpLoop iT fuel pre
        | none => ∅
      else t

/-- Embedding of `tags_from_interpreter` (lib.rs 641) over an injected
interpreter table: take the last `/`-separated segment, then
progressively strip dotted version suffixes until the table hits. -/
def tags_from_interpreter_t (iT : String → TagSet) (interpreter : String) : TagSet :=
  let name := ((splitOnChar '/' interpreter).getLastD interpreter).data
  interpLoop iT (name.length + 1) name

/-- The source's `tags_from_interpreter`, using the built-in
`INTERPRETERS` table. -/
def tags_from_interpreter (interpreter : String) : TagSet :=
  tags_from_interpreter_t get_interpreter_tags interpreter

/-! ## Filesystem model and the classifier (lib.rs 378-548) -/

/-- File type as reported by metadata. -/
inductive FileType
  | directory
  | symlink
  | socket
  | regular
deriving DecidableEq

/-- Metadata for one path: its type and whether any of the `0o111`
permission bits is set. -/
structure FileMeta where
  ftype : FileType
  exec : Bool
deriving DecidableEq

/-- Why a stat can fail.  The source's `fs::symlink_metadata` error is
an `io::Error`; only the not-found/other distinction matters here. -/
inductive StatError
  | notFound
  | permissionDenied
  | otherFailure
deriving DecidableEq

/-- Abstract state of one filesystem path: the final component of the
path as a UTF-8 string when it has one (`path.file_name()`), the
outcome of `fs::symlink_metadata`, the outcome of `fs::metadata`
(follows symlinks; used by `parse_shebang_from_file`), and the outcome
of `fs::File::open` — which, when it succeeds, hands back a reader
whose own read may still fail. -/
structure PathModel where
  fileName : Option String
  stat : Except StatError FileMeta
  statFollow : Except Unit FileMeta
  openFile : Except Unit ReaderM

/-- The `IdentifyError` enum of lib.rs 352-372 (payload strings
dropped). -/
inductive IdentifyError
  | pathNotFound
  | ioError
  | invalidPath
  | invalidUtf8
deriving DecidableEq

/-- Embedding of `file_is_text` (lib.rs 696): open, then sniff; both
failures propagate. -/
def file_is_text (p : PathModel) : Except Unit Bool :=
  match p.openFile with
  | .error e => .error e
  | .ok r => is_text r

/-- Embedding of `parse_shebang_from_file` (lib.rs 783): stat (follows
links) with `?`, return an empty command before opening when no
execute bit is set, otherwise open with `?` and parse. -/
def parse_shebang_from_file (p : PathModel) : Except Unit (List String) :=
  match p.statFollow with
  | .error e => .error e
  | .ok meta =>
    if meta.exec = false then .ok []
    else
      match p.openFile with
      | .error e => .error e
      | .ok r => parse_shebang r

/-- Embedding of `analyze_file_type` (lib.rs 378): directory, symlink
and socket short-circuit to a singleton tag set; a regular file falls
through. -/
def analyze_file_type (meta : FileMeta) : Option TagSet :=
  match meta.ftype with
  | .directory => some {"directory"}
  | .symlink => some {"symlink"}
  | .socket => some {"socket"}
  | .regular => none

/-- Embedding of `analyze_permissions` (lib.rs 405, Unix branch):
`mode & 0o111 != 0`. -/
def analyze_permissions (meta : FileMeta) : Bool := meta.exec

/-- Embedding of `analyze_filename_and_shebang` (lib.rs 428):
filename-table resolution first; only when it yields nothing and the
file is executable is the shebang parsed and its first component
resolved; a failing `parse_shebang_from_file` is absorbed by the
`if let Ok(..)`. -/
def analyze_filename_and_shebang (nT eT bT iT : String → TagSet)
    (p : PathModel) (is_executable : Bool) : TagSet :=
  match p.fileName with
  | none => ∅
  | some filename =>
    let filenameTags := tags_from_filename nT eT bT filename
    if filenameTags = ∅ then
      if is_executable then
        match parse_shebang_from_file p with
        | .ok comps =>
          match comps with
          | [] => ∅
          | c0 :: _ => tags_from_interpreter_t iT c0
        | .error _ => ∅
      else ∅
    else filenameTags

/-- Embedding of `analyze_content_encoding` (lib.rs 454): sniff only
when no encoding tag is already present; a sniffing failure
propagates. -/
def analyze_content_encoding (p : PathModel) (existing : TagSet) : Except Unit TagSet :=
  if ∃ t ∈ existing, t = "binary" ∨ t = "text" then .ok ∅
  else
    match file_is_text p with
    | .error e => .error e
    | .ok b => .ok (if b then {"text"} else {"binary"})

/-- Embedding of `tags_from_path` (lib.rs 508), parameterised by the
injected tables.  Any stat failure becomes `PathNotFound`
(the `Err(_)` arm at lib.rs 515); non-regular types short-circuit;
a regular file gets `file`, one mode tag, filename/shebang tags, and
an encoding tag when none was supplied, with sniffing failures
surfacing as `IoError` (the `?` at lib.rs 544). -/
def tags_from_path (nT eT bT iT : String → TagSet) (p : PathModel) :
    Except IdentifyError TagSet :=
  match p.stat with
  | .error _ => .error .pathNotFound
  | .ok meta =>
    match analyze_file_type meta with
    | some typeTags => .ok typeTags
    | none =>
      let tags : TagSet := {"file"}
      let isExec := analyze_permissions meta
      let tags := tags ∪ (if isExec then {"executable"} else {"non-executable"})
      let tags := tags ∪ analyze_filename_and_shebang nT eT bT iT p isExec
      match analyze_content_encoding p tags with
      | .error _ => .error .ioError
      | .ok enc => .ok (tags ∪ enc)

/-- Configuration of the builder type `FileIdentifier` (lib.rs 195):
the two skip flags and the optional custom extension mapping
(a `HashMap` lookup, hence `Option TagSet`-valued). -/
structure FileIdentifier where
  skip_content_analysis : Bool
  skip_shebang_analysis : Bool
  custom_extensions : Option (String → Option TagSet)

/-- `FileIdentifier::new` (lib.rs 215): all analysis steps enabled, no
custom extensions. -/
def FileIdentifier.new : FileIdentifier :=
  { skip_content_analysis := false
    skip_shebang_analysis := false
    custom_extensions := none }

/-- Embedding of `analyze_filename_and_shebang_configured`
(lib.rs 305): a configured custom-extension hit is used exclusively;
otherwise standard filename analysis, with the shebang step further
gated on `!skip_shebang_analysis`. -/
def analyze_filename_and_shebang_configured (cfg : FileIdentifier)
    (nT eT bT iT : String → TagSet) (p : PathModel) (is_executable : Bool) : TagSet :=
  match p.fileName with
  | none => ∅
  | some filename =>
    let customHit : Option TagSet :=
      match cfg.custom_extensions with
      | none => none
      | some m =>
        match rustExtension filename with
        | none => none
        | some ext => m (toLowerAscii ext)
    match customHit with
    | some extTags => extTags
    | none =>
      let filenameTags := tags_from_filename nT eT bT filename
      if filenameTags = ∅ then
        if is_executable = true ∧ cfg.skip_shebang_analysis = false then
          match parse_shebang_from_file p with
          | .ok comps =>
            match comps with
            | [] => ∅
            | c0 :: _ => tags_from_interpreter_t iT c0
          | .error _ => ∅
        else ∅
      else filenameTags

/-- Embedding of `FileIdentifier::identify_with_config` (lib.rs 260):
the same step sequence as `tags_from_path`, with the configured
filename step and with content analysis skipped when
`skip_content_analysis` is set. -/
def identify_with_config (cfg : FileIdentifier) (nT eT bT iT : String → TagSet)
    (p : PathModel) : Except IdentifyError TagSet :=
  match p.stat with
  | .error _ => .error .pathNotFound
  | .ok meta =>
    match analyze_file_type meta with
    | some typeTags => .ok typeTags
    | none =>
      let tags : TagSet := {"file"}
      let isExec := analyze_permissions meta
      let tags := tags ∪ (if isExec then {"executable"} else {"non-executable"})
      let tags := tags ∪ analyze_filename_and_shebang_configured cfg nT eT bT iT p isExec
      if cfg.skip_content_analysis then .ok tags
      else
        match analyze_content_encoding p tags with
        | .error _ => .error .ioError
        | .ok enc => .ok (tags ∪ enc)

/-! ## Specification-side definitions -/

/-- Rejoin dot-separated pieces. -/
def joinDots : List String → String
  | [] => ""
  | [p] => p
  | p :: ps => p ++ "." ++ joinDots ps

/-- Written from the claim's own words, for comparison with the source
behaviour: the "dot-delimited prefix-removal steps" of a filename, the
suffixes obtained by successively removing leading dot-separated
components (so for a.b.c: a.b.c, then b.c, then c). -/
def specDotSuffixes (filename : String) : List String :=
  let parts := splitOnChar '.' filename
  (List.range parts.length).map (fun i => joinDots (parts.drop i))

/-! ## Helper lemmas -/

/-- The byte set of `is_text`, written out as arithmetic ranges. -/
lemma isTextByte_iff (b : Nat) :
    isTextByte b = true ↔
      (b = 7 ∨ b = 8 ∨ b = 9 ∨ b = 10 ∨ b = 11 ∨ b = 12 ∨ b = 13 ∨ b = 27)
        ∨ (0x20 ≤ b ∧ b ≤ 0x7E) ∨ (0x80 ≤ b ∧ b ≤ 0xFF) := by
  simp only [isTextByte, Bool.or_eq_true, Bool.and_eq_true, decide_eq_true_eq]
  omega

/-- Reading the first line of `l ++ 10 :: r` when `l` has no newline
yields `l` with the newline appended. -/
lemma readFirstLineBytes_append (l r : List Nat) (h : 10 ∉ l) :
    readFirstLineBytes (l ++ 10 :: r) = l ++ [10] := by
  induction l with
  | nil => simp [readFirstLineBytes]
  | cons b bs ih =>
    have hb : b ≠ 10 := by intro hb; exact h (hb ▸ List.mem_cons_self b bs)
    have hbs : 10 ∉ bs := fun hm => h (List.mem_cons_of_mem b hm)
    simp [readFirstLineBytes, hb, ih hbs]

/-- Unfolding `is_text` on a successful reader. -/
lemma is_text_ok (bytes : List Nat) :
    is_text (.ok bytes) = .ok ((bytes.take 1024).all isTextByte) := rfl

/-- The name loop returns the accumulator extended with the entry of
the first candidate that has a non-empty entry, if any. -/
lemma nameLoop_eq_find (nT : String → TagSet) (l : List String) (acc : TagSet) :
    nameLoop nT l acc =
      match l.find? (fun c => decide (nT c ≠ ∅)) with
      | some c => acc ∪ nT c
      | none => acc := by
  induction l with
  | nil => rfl
  | cons p ps ih =>
    by_cases h : nT p = ∅
    · simp [nameLoop, h, List.find?, ih]
    · simp [nameLoop, h, List.find?]

end FileIdentify

namespace FileIdentify

/-! ## Claim C4 -/

/-- Claim C4 (confirmed): for a tokenized shebang line whose first
token is exactly `/usr/bin/env`, no further tokens give an empty
command, a second token `-S` gives all tokens after `-S` (empty when
none remain), and otherwise the command is all tokens after `env`;
any other first token gives the full token list.  In particular the
streams `#!/usr/bin/env` and `#!/usr/bin/env -S` both parse to an
empty command. -/
theorem c4_env_unwrapping :
    (envUnwrap ["/usr/bin/env"] = [])
      ∧ (∀ rest2 : List String, envUnwrap ("/usr/bin/env" :: "-S" :: rest2) = rest2)
      ∧ (∀ (p1 : String) (rest : List String), p1 ≠ "-S" →
          envUnwrap ("/usr/bin/env" :: p1 :: rest) = p1 :: rest)
      ∧ (∀ (p0 : String) (rest : List String), p0 ≠ "/usr/bin/env" →
          envUnwrap (p0 :: rest) = p0 :: rest)
      ∧ parse_shebang (.ok [35, 33, 47, 117, 115, 114, 47, 98, 105, 110, 47,
          101, 110, 118]) = .ok []
      ∧ parse_shebang (.ok [35, 33, 47, 117, 115, 114, 47, 98, 105, 110, 47,
          101, 110, 118, 32, 45, 83]) = .ok [] := by
  refine ⟨by decide, fun rest2 => by simp [envUnwrap], fun p1 rest h => ?_,
    fun p0 rest h => by simp [envUnwrap, h], by decide, by decide⟩
  simp [envUnwrap, h]

/-- Witness for C4, applying the two hypothesis-bearing conjuncts at
concrete tokens. -/
theorem c4_env_unwrapping_witness :
    envUnwrap ["/usr/bin/env", "python", "-u"] = ["python", "-u"]
      ∧ envUnwrap ["/usr/bin/python"] = ["/usr/bin/python"] :=
  ⟨c4_env_unwrapping.2.2.1 "python" ["-u"] (by decide),
   c4_env_unwrapping.2.2.2.1 "/usr/bin/python" [] (by decide)⟩

/-! ## Claim C2 -/

/-- Counterexample to claim C2 as stated: a lower-level read failure
does not propagate as an I/O error; the `Err(_)` arm of the
`read_until` match (lib.rs 847) turns it into `Ok` with an empty
command. -/
theorem c2_counterexample :
    parse_shebang (.error ()) = .ok ([] : List String) := by decide

/-- Claim C2 as amended: `parse_shebang` never returns an error for
any input whatsoever.  Malformed input — a missing `#!` marker, a
first line whose 1024-byte truncation is not valid UTF-8, a non-ASCII
character or a control character other than tab in the trimmed
shebang text, or text that tokenizes to nothing — yields `Ok` with an
empty command, and a lower-level read failure is likewise absorbed
into `Ok` with an empty command instead of propagating. -/
theorem c2_amended :
    (∀ reader : ReaderM, ∃ cmd, parse_shebang reader = .ok cmd)
      ∧ (parse_shebang (.error ()) = .ok [])
      ∧ (∀ stream : List Nat,
          (stripTrailByte 13 (stripTrailByte 10 (readFirstLineBytes stream))).take 2
              ≠ [35, 33] →
          parse_shebang (.ok stream) = .ok [])
      ∧ (∀ stream : List Nat,
          utf8Decode
              ((stripTrailByte 13 (stripTrailByte 10 (readFirstLineBytes stream))).take 1024)
              = none →
          parse_shebang (.ok stream) = .ok [])
      ∧ (∀ stream cps : List Nat,
          utf8Decode
              ((stripTrailByte 13 (stripTrailByte 10 (readFirstLineBytes stream))).take 1024)
              = some cps →
          (∃ c ∈ trimCps (cps.drop 2), 0x80 ≤ c ∨ (isControlCp c = true ∧ c ≠ 9)) →
          parse_shebang (.ok stream) = .ok [])
      ∧ (∀ stream cps : List Nat,
          utf8Decode
              ((stripTrailByte 13 (stripTrailByte 10 (readFirstLineBytes stream))).take 1024)
              = some cps →
          splitWhitespaceCps (trimCps (cps.drop 2)) = [] →
          parse_shebang (.ok stream) = .ok []) := by
  refine ⟨?_, by decide, ?_, ?_, ?_, ?_⟩
  · intro reader
    cases reader with
    | error e => exact ⟨[], rfl⟩
    | ok stream => exact ⟨parseShebangBytes stream, rfl⟩
  · intro stream h
    by_cases hs : stream = []
    · simp [parse_shebang, parseShebangBytes, hs]
    · simp only [parse_shebang, parseShebangBytes, if_neg hs, processFirstLine]
      rw [if_pos (Or.inr h)]
  · intro stream hu
    by_cases hs : stream = []
    · simp [parse_shebang, parseShebangBytes, hs]
    · simp only [parse_shebang, parseShebangBytes, if_neg hs, processFirstLine]
      split
      · rfl
      · rw [hu]
  · intro stream cps hu hc
    by_cases hs : stream = []
    · simp [parse_shebang, parseShebangBytes, hs]
    · simp only [parse_shebang, parseShebangBytes, if_neg hs, processFirstLine]
      split
      · rfl
      · rw [hu]
        have hany : (trimCps (cps.drop 2)).any
            (fun c => decide (0x80 ≤ c) || (isControlCp c && c ≠ 9)) = true := by
          obtain ⟨c, hcmem, hcbad⟩ := hc
          refine List.any_eq_true.mpr ⟨c, hcmem, ?_⟩
          rcases hcbad with h1 | ⟨h2, h3⟩
          · simp [h1]
          · simp [h2, h3]
        have hpd : processDecoded cps = [] := by
          unfold processDecoded
          dsimp only
          split
          · rfl
          · rename_i hfalse
            exact absurd hany hfalse
        exact congrArg Except.ok hpd
  · intro stream cps hu hsplit
    by_cases hs : stream = []
    · simp [parse_shebang, parseShebangBytes, hs]
    · simp only [parse_shebang, parseShebangBytes, if_neg hs, processFirstLine]
      split
      · rfl
      · rw [hu]
        have hpd : processDecoded cps = [] := by
          unfold processDecoded
          dsimp only
          split
          · rfl
          · split
            · rfl
            · rename_i hne
              rw [hsplit] at hne
              exact absurd rfl hne
        exact congrArg Except.ok hpd

/-- Witness for C2, applying two of the hypothesis-bearing conjuncts:
a stream with no shebang marker, and a stream whose first line is not
valid UTF-8. -/
theorem c2_amended_witness :
    parse_shebang (.ok [112, 121]) = .ok []
      ∧ parse_shebang (.ok [35, 33, 255]) = .ok [] :=
  ⟨c2_amended.2.2.1 [112, 121] (by decide),
   c2_amended.2.2.2.1 [35, 33, 255] (by decide)⟩

/-! ## Claim C6 -/

/-- Claim C6 (confirmed): `is_text` reads at most the first 1024 bytes
and returns true exactly when every byte read is in the allowed set
(7, 8, 9, 10, 11, 12, 13, 27, the printable range 0x20 to 0x7E, or the
extended range 0x80 to 0xFF); an empty source is text, and any read
byte in 0x00-0x06, 0x0E-0x1A, 0x1C-0x1F or 0x7F forces false. -/
theorem c6_is_text_characterisation :
    (∀ stream : List Nat,
      is_text (.ok stream) = .ok true ↔
        ∀ b ∈ stream.take 1024,
          (b = 7 ∨ b = 8 ∨ b = 9 ∨ b = 10 ∨ b = 11 ∨ b = 12 ∨ b = 13 ∨ b = 27)
            ∨ (0x20 ≤ b ∧ b ≤ 0x7E) ∨ (0x80 ≤ b ∧ b ≤ 0xFF))
      ∧ is_text (.ok []) = .ok true
      ∧ (∀ (stream : List Nat) (b : Nat), b ∈ stream.take 1024 →
          (b ≤ 6 ∨ (0x0E ≤ b ∧ b ≤ 0x1A) ∨ (0x1C ≤ b ∧ b ≤ 0x1F) ∨ b = 0x7F) →
          is_text (.ok stream) = .ok false) := by
  refine ⟨?_, by decide, ?_⟩
  · intro stream
    constructor
    · intro h b hb
      have hall : (stream.take 1024).all isTextByte = true := by
        simpa [is_text] using h
      exact (isTextByte_iff b).mp (List.all_eq_true.mp hall b hb)
    · intro h
      have hall : (stream.take 1024).all isTextByte = true :=
        List.all_eq_true.mpr (fun b hb => (isTextByte_iff b).mpr (h b hb))
      simp [is_text, hall]
  · intro stream b hb hbad
    have hfalse : isTextByte b = false := by
      rw [Bool.eq_false_iff]
      intro hT
      have := (isTextByte_iff b).mp hT
      omega
    have hall : (stream.take 1024).all isTextByte = false :=
      List.all_eq_false.mpr ⟨b, hb, by simp [hfalse]⟩
    simp [is_text, hall]

/-- Witness for C6: a single zero byte is read and forces the result
false. -/
theorem c6_is_text_characterisation_witness :
    is_text (.ok [0]) = .ok false :=
  c6_is_text_characterisation.2.2 [0] 0 (by decide) (by decide)

/-! ## Claim C7 -/

/-- Counterexample to claim C7 as stated: a stream whose only zero
byte sits past the 1024-byte read window is still classified as text,
so a `0x00` byte "anywhere in the content" does not force a binary
classification. -/
theorem c7_counterexample :
    is_text (.ok (List.replicate 1024 65 ++ [0])) = .ok true
      ∧ (0 : Nat) ∈ List.replicate 1024 65 ++ [0] := by
  constructor
  · have hlen : (List.replicate 1024 (65 : Nat)).length = 1024 :=
      List.length_replicate 1024 65
    have htake : (List.replicate 1024 (65 : Nat) ++ [0]).take 1024 =
        List.replicate 1024 65 := List.take_left' hlen
    have hall : (List.replicate 1024 (65 : Nat)).all isTextByte = true := by
      refine List.all_eq_true.mpr (fun b hb => ?_)
      rcases List.eq_of_mem_replicate hb with rfl
      decide
    rw [is_text_ok, htake, hall]
  · exact List.mem_append.mpr (Or.inr (List.mem_singleton.mpr rfl))

/-- Claim C7 as amended: a `0x00` byte among the bytes actually read
(the first 1024 of the stream) forces `is_text` to return false. -/
theorem c7_amended (stream : List Nat) (h : 0 ∈ stream.take 1024) :
    is_text (.ok stream) = .ok false := by
  have hall : (stream.take 1024).all isTextByte = false :=
    List.all_eq_false.mpr ⟨0, h, by decide⟩
  simp [is_text, hall]

/-- Witness for C7: a stream starting with a zero byte. -/
theorem c7_amended_witness : is_text (.ok [0, 65]) = .ok false :=
  c7_amended [0, 65] (by decide)

/-! ## Claim C10 -/

/-- Claim C10 (confirmed): for an existing regular file without the
executable permission bit, `parse_shebang_from_file` returns an empty
command without reading the file's content — the result is `Ok empty`
for every possible content, including unreadable content. -/
theorem c10_non_executable_no_read (p : PathModel) (m : FileMeta)
    (hstat : p.statFollow = .ok m) (hreg : m.ftype = .regular)
    (hexec : m.exec = false) :
    parse_shebang_from_file p = .ok [] := by
  unfold parse_shebang_from_file
  rw [hstat]
  simp [hexec]

/-- Witness for C10: a concrete non-executable regular file whose
content cannot even be opened still yields an empty command. -/
theorem c10_non_executable_no_read_witness :
    parse_shebang_from_file
      { fileName := some "script"
        stat := .ok { ftype := .regular, exec := false }
        statFollow := .ok { ftype := .regular, exec := false }
        openFile := .error () } = .ok [] :=
  c10_non_executable_no_read _ _ rfl rfl rfl

/-! ## Claim C5 -/

/-- Congruence for the name loop: only the candidate-list entries of
the table matter. -/
lemma nameLoop_congr (nT nT2 : String → TagSet) (l : List String) (acc : TagSet)
    (h : ∀ c ∈ l, nT c = nT2 c) :
    nameLoop nT l acc = nameLoop nT2 l acc := by
  induction l generalizing acc with
  | nil => rfl
  | cons p ps ih =>
    have hp : nT p = nT2 p := h p (List.mem_cons_self p ps)
    have hps : ∀ c ∈ ps, nT c = nT2 c := fun c hc => h c (List.mem_cons_of_mem p hc)
    simp only [nameLoop, hp]
    by_cases h2 : nT2 p = ∅
    · simp only [h2, if_pos rfl, ih _ hps]
    · simp [h2]

/-- Name table for the C5 counterexample: only the dot-delimited
suffix b.c of a.b.c has an entry. -/
def nTsuffix : String → TagSet := fun s => if s = "b.c" then {"t"} else ∅

/-- A second table for the C5 witness, agreeing with `nTsuffix` on
every lookup candidate of a.b.c but not everywhere. -/
def nTsuffix2 : String → TagSet := fun s => if s = "zz" then {"q"} else nTsuffix s

/-- Counterexample to claim C5 as stated: the special-name lookup
tries the whole filename and then the individual dot-separated
components (a.b.c, a, b, c), not the dot-delimited suffixes.  With a
table whose only entry is the suffix b.c — a string the claim says is
tried, with its match winning — the code's lookup misses everywhere
and filename resolution yields nothing. -/
theorem c5_counterexample :
    tags_from_filename nTsuffix (fun _ => ∅) (fun _ => ∅) "a.b.c" = ∅
      ∧ specDotSuffixes "a.b.c" = ["a.b.c", "b.c", "c"]
      ∧ nTsuffix "b.c" = {"t"} :=
  ⟨by decide, by decide, by decide⟩

/-- Claim C5 as amended: the special-name lookup consults exactly the
whole filename followed by the individual dot-separated components of
the filename, in that order; the first candidate with a non-empty
entry wins and supplies the result; and the result depends on no
string outside that candidate list. -/
theorem c5_name_lookup_candidates (nT nT2 : String → TagSet) (filename : String) :
    (nameLoop nT (filename :: splitOnChar '.' filename) ∅ =
      match (filename :: splitOnChar '.' filename).find? (fun c => decide (nT c ≠ ∅)) with
      | some c => nT c
      | none => ∅)
      ∧ ((∀ c ∈ filename :: splitOnChar '.' filename, nT c = nT2 c) →
          nameLoop nT (filename :: splitOnChar '.' filename) ∅ =
            nameLoop nT2 (filename :: splitOnChar '.' filename) ∅) := by
  constructor
  · rw [nameLoop_eq_find]
    cases (filename :: splitOnChar '.' filename).find? (fun c => decide (nT c ≠ ∅)) with
    | none => rfl
    | some c => simp
  · intro hagree
    exact nameLoop_congr nT nT2 _ ∅ hagree

/-- Witness for C5: `nTsuffix` and `nTsuffix2` agree on all four
lookup candidates of a.b.c, so the name loop cannot tell them
apart. -/
theorem c5_name_lookup_candidates_witness :
    nameLoop nTsuffix ("a.b.c" :: splitOnChar '.' "a.b.c") ∅ =
      nameLoop nTsuffix2 ("a.b.c" :: splitOnChar '.' "a.b.c") ∅ :=
  (c5_name_lookup_candidates nTsuffix nTsuffix2 "a.b.c").2 (by decide)

/-! ## Claim C1 -/

/-- Name table for the C1 counterexample. -/
def nTini : String → TagSet := fun s => if s = "a.cfg" then {"ini"} else ∅

/-- Built-in extension table for the C1 counterexample. -/
def eTcfg : String → TagSet := fun s => if s = "cfg" then {"x"} else ∅

/-- Counterexample to claim C1 as stated: with a special-name entry
for a.cfg and a built-in extension entry for cfg, the special-name
match succeeds and the extension tag x is nevertheless added — the
extension tables are consulted unconditionally (lib.rs 593-605), not
only on a special-name miss. -/
theorem c1_counterexample :
    tags_from_filename nTini eTcfg (fun _ => ∅) "a.cfg" = {"ini", "x"}
      ∧ nTini "a.cfg" = {"ini"}
      ∧ eTcfg "cfg" = {"x"} :=
  ⟨by decide, by decide, by decide⟩

/-- Claim C1 as amended: special-name resolution and extension
resolution are independent and their results are unioned — a
successful special-name match does not suppress extension-table tags.
Within extension resolution the built-in table is consulted first, and
the binary-check-only table is consulted only when the built-in entry
is empty: when the built-in entry is non-empty the result does not
depend on the binary-check-only table at all. -/
theorem c1_filename_resolution (nT eT bT : String → TagSet) (filename : String) :
    (tags_from_filename nT eT bT filename =
      nameLoop nT (filename :: splitOnChar '.' filename) ∅ ∪
        (match rustExtension filename with
         | none => ∅
         | some ext =>
           if eT (toLowerAscii ext) = ∅ then bT (toLowerAscii ext)
           else eT (toLowerAscii ext)))
      ∧ (∀ ext, rustExtension filename = some ext → eT (toLowerAscii ext) ≠ ∅ →
          ∀ bT2 : String → TagSet,
            tags_from_filename nT eT bT filename =
              tags_from_filename nT eT bT2 filename) := by
  constructor
  · unfold tags_from_filename
    dsimp only
    cases hre : rustExtension filename with
    | none => simp
    | some ext =>
      by_cases he : eT (toLowerAscii ext) = ∅
      · by_cases hb : bT (toLowerAscii ext) = ∅
        · simp [he, hb]
        · simp [he, hb]
      · simp [he]
  · intro ext hext hne bT2
    unfold tags_from_filename
    dsimp only
    rw [hext]
    simp [hne]

/-- Witness for C1: the built-in entry for cfg is non-empty, so
replacing the binary-check-only table wholesale cannot change the
result for a.cfg. -/
theorem c1_filename_resolution_witness :
    tags_from_filename nTini eTcfg (fun _ => ∅) "a.cfg" =
      tags_from_filename nTini eTcfg (fun _ => {"zzz"}) "a.cfg" :=
  (c1_filename_resolution nTini eTcfg (fun _ => ∅) "a.cfg").2 "cfg"
    (by decide) (by decide) (fun _ => {"zzz"})

/-! ## Claim C8 -/

/-- A metadata record falls through `analyze_file_type` exactly for a
regular file. -/
lemma analyze_file_type_none_iff (m : FileMeta) :
    analyze_file_type m = none ↔ m.ftype = .regular := by
  cases m with
  | mk ftype exec => cases ftype <;> simp [analyze_file_type]

/-- When an encoding tag is already present, no sniffing happens. -/
lemma analyze_content_encoding_preempted (p : PathModel) (existing : TagSet)
    (h : ∃ t ∈ existing, t = "binary" ∨ t = "text") :
    analyze_content_encoding p existing = .ok ∅ := by
  unfold analyze_content_encoding
  rw [if_pos h]

/-- When no encoding tag is present and the sniffing read fails, the
failure propagates. -/
lemma analyze_content_encoding_fail (p : PathModel) (existing : TagSet)
    (hf : file_is_text p = .error ())
    (h : ¬ ∃ t ∈ existing, t = "binary" ∨ t = "text") :
    analyze_content_encoding p existing = .error () := by
  unfold analyze_content_encoding
  rw [if_neg h, hf]

/-- When the sniffing read succeeds, encoding analysis always
succeeds. -/
lemma analyze_content_encoding_ok (p : PathModel) (existing : TagSet) (b : Bool)
    (hb : file_is_text p = .ok b) :
    ∃ enc, analyze_content_encoding p existing = .ok enc := by
  unfold analyze_content_encoding
  by_cases h : ∃ t ∈ existing, t = "binary" ∨ t = "text"
  · rw [if_pos h]; exact ⟨∅, rfl⟩
  · rw [if_neg h, hb]; exact ⟨_, rfl⟩

/-- Unfolding `tags_from_path` on a failing stat. -/
lemma tags_from_path_stat_error (nT eT bT iT : String → TagSet) (p : PathModel)
    (e : StatError) (he : p.stat = .error e) :
    tags_from_path nT eT bT iT p = .error .pathNotFound := by
  unfold tags_from_path
  rw [he]

/-- Unfolding `tags_from_path` on a non-regular entry. -/
lemma tags_from_path_nonregular (nT eT bT iT : String → TagSet) (p : PathModel)
    (m : FileMeta) (t : TagSet) (hm : p.stat = .ok m)
    (haft : analyze_file_type m = some t) :
    tags_from_path nT eT bT iT p = .ok t := by
  unfold tags_from_path
  rw [hm]
  dsimp only
  rw [haft]

/-- Unfolding `tags_from_path` on a regular file. -/
lemma tags_from_path_regular_eq (nT eT bT iT : String → TagSet) (p : PathModel)
    (m : FileMeta) (hm : p.stat = .ok m) (hreg : m.ftype = .regular) :
    tags_from_path nT eT bT iT p =
      match analyze_content_encoding p
          (({"file"} : TagSet) ∪ (if m.exec then {"executable"} else {"non-executable"})
            ∪ analyze_filename_and_shebang nT eT bT iT p m.exec) with
      | .error _ => .error .ioError
      | .ok enc =>
        .ok (({"file"} : TagSet) ∪ (if m.exec then {"executable"} else {"non-executable"})
              ∪ analyze_filename_and_shebang nT eT bT iT p m.exec ∪ enc) := by
  unfold tags_from_path
  rw [hm]
  dsimp only [analyze_permissions]
  rw [(analyze_file_type_none_iff m).mpr hreg]

/-- Encoding analysis cannot fail when the sniffing read succeeds. -/
lemma analyze_content_encoding_ne_error (p : PathModel) (existing : TagSet) (b : Bool)
    (hb : file_is_text p = .ok b) (e : Unit) :
    analyze_content_encoding p existing ≠ .error e := by
  obtain ⟨enc, hok⟩ := analyze_content_encoding_ok p existing b hb
  rw [hok]
  intro h
  cases h

/-- An encoding tag found in the accumulated tag set of a regular file
must come from the filename/shebang step: the `file` tag and the mode
tags are not encoding tags. -/
lemma enc_tag_mem_of_full {A : TagSet} {t : String} (mexec : Bool)
    (ht : t ∈ ({"file"} : TagSet) ∪ (if mexec then {"executable"} else {"non-executable"}) ∪ A)
    (hbt : t = "binary" ∨ t = "text") : t ∈ A := by
  rcases Finset.mem_union.mp ht with h1 | h2
  · rcases Finset.mem_union.mp h1 with h3 | h4
    · exfalso
      have h5 := Finset.mem_singleton.mp h3
      rcases hbt with rfl | rfl <;> exact absurd h5 (by decide)
    · exfalso
      cases mexec with
      | false =>
        have h5 := Finset.mem_singleton.mp (by simpa using h4)
        rcases hbt with rfl | rfl <;> exact absurd h5 (by decide)
      | true =>
        have h5 := Finset.mem_singleton.mp (by simpa using h4)
        rcases hbt with rfl | rfl <;> exact absurd h5 (by decide)
  · exact h2

/-- Path model for the C8 counterexample: the stat itself fails, for a
reason other than non-existence. -/
def pStatDenied : PathModel :=
  { fileName := some "f"
    stat := .error .permissionDenied
    statFollow := .error ()
    openFile := .error () }

/-- Counterexample to claim C8 as stated: a stat that fails for a
reason other than non-existence (here: permission denied) is reported
as `PathNotFound`, not as an I/O error — the `Err(_)` arm at
lib.rs 515 discards the failure reason. -/
theorem c8_counterexample :
    tags_from_path (fun _ => ∅) (fun _ => ∅) (fun _ => ∅) get_interpreter_tags
      pStatDenied = .error .pathNotFound := by decide

/-- Claim C8 as amended: `tags_from_path` returns `PathNotFound`
exactly when the stat fails, for any reason whatsoever; every
classification of a stat-able path succeeds except when the subject is
a regular file, no encoding tag was supplied by the filename step, and
the content read for sniffing fails — in exactly that case the result
is an I/O error.  Failures in the shebang-reading stage never surface
(they are absorbed by `analyze_filename_and_shebang`). -/
theorem c8_error_taxonomy (nT eT bT iT : String → TagSet) (p : PathModel) :
    (∀ e, p.stat = .error e →
        tags_from_path nT eT bT iT p = .error .pathNotFound)
      ∧ (∀ m, p.stat = .ok m →
          tags_from_path nT eT bT iT p ≠ .error .pathNotFound)
      ∧ (∀ m, p.stat = .ok m → m.ftype ≠ .regular →
          ∃ tags, tags_from_path nT eT bT iT p = .ok tags)
      ∧ (∀ m b, p.stat = .ok m → file_is_text p = .ok b →
          ∃ tags, tags_from_path nT eT bT iT p = .ok tags)
      ∧ (∀ m, p.stat = .ok m → m.ftype = .regular →
          file_is_text p = .error () →
          (∃ t ∈ analyze_filename_and_shebang nT eT bT iT p m.exec,
            t = "binary" ∨ t = "text") →
          ∃ tags, tags_from_path nT eT bT iT p = .ok tags)
      ∧ (∀ m, p.stat = .ok m → m.ftype = .regular →
          file_is_text p = .error () →
          (¬ ∃ t ∈ analyze_filename_and_shebang nT eT bT iT p m.exec,
            t = "binary" ∨ t = "text") →
          tags_from_path nT eT bT iT p = .error .ioError) := by
  refine ⟨?_, ?_, ?_, ?_, ?_, ?_⟩
  · intro e he
    exact tags_from_path_stat_error nT eT bT iT p e he
  · intro m hm
    cases haft : analyze_file_type m with
    | some t =>
      rw [tags_from_path_nonregular nT eT bT iT p m t hm haft]
      intro h
      cases h
    | none =>
      rw [tags_from_path_regular_eq nT eT bT iT p m hm
        ((analyze_file_type_none_iff m).mp haft)]
      split
      · intro h
        injection h with h2
        cases h2
      · intro h
        cases h
  · intro m hm hnreg
    have haft : ∃ t, analyze_file_type m = some t := by
      cases h : analyze_file_type m with
      | none => exact absurd ((analyze_file_type_none_iff m).mp h) hnreg
      | some t => exact ⟨t, rfl⟩
    obtain ⟨t, haft⟩ := haft
    exact ⟨t, tags_from_path_nonregular nT eT bT iT p m t hm haft⟩
  · intro m b hm hb
    cases haft : analyze_file_type m with
    | some t => exact ⟨t, tags_from_path_nonregular nT eT bT iT p m t hm haft⟩
    | none =>
      rw [tags_from_path_regular_eq nT eT bT iT p m hm
        ((analyze_file_type_none_iff m).mp haft)]
      split
      · rename_i e hace
        exact absurd hace (analyze_content_encoding_ne_error p _ b hb e)
      · exact ⟨_, rfl⟩
  · intro m hm hreg hf hex
    rw [tags_from_path_regular_eq nT eT bT iT p m hm hreg]
    obtain ⟨t, ht, hbt⟩ := hex
    have hfull : ∃ t ∈ ({"file"} : TagSet)
        ∪ (if m.exec then {"executable"} else {"non-executable"})
        ∪ analyze_filename_and_shebang nT eT bT iT p m.exec, t = "binary" ∨ t = "text" :=
      ⟨t, Finset.mem_union_right _ ht, hbt⟩
    rw [analyze_content_encoding_preempted p _ hfull]
    exact ⟨_, rfl⟩
  · intro m hm hreg hf hnone
    rw [tags_from_path_regular_eq nT eT bT iT p m hm hreg]
    have hnofull : ¬ ∃ t ∈ ({"file"} : TagSet)
        ∪ (if m.exec then {"executable"} else {"non-executable"})
        ∪ analyze_filename_and_shebang nT eT bT iT p m.exec, t = "binary" ∨ t = "text" := by
      rintro ⟨t, ht, hbt⟩
      exact hnone ⟨t, enc_tag_mem_of_full m.exec ht hbt, hbt⟩
    rw [analyze_content_encoding_fail p _ hf hnofull]

/-- Path model for the C8 witness: a stat-able regular file whose
content cannot be read. -/
def pSniffFail : PathModel :=
  { fileName := some "data"
    stat := .ok { ftype := .regular, exec := false }
    statFollow := .ok { ftype := .regular, exec := false }
    openFile := .error () }

/-- Witness for C8: the sniffing-read failure on a regular file with
no table-supplied encoding surfaces as an I/O error. -/
theorem c8_error_taxonomy_witness :
    tags_from_path (fun _ => ∅) (fun _ => ∅) (fun _ => ∅) get_interpreter_tags
      pSniffFail = .error .ioError :=
  (c8_error_taxonomy (fun _ => ∅) (fun _ => ∅) (fun _ => ∅) get_interpreter_tags
      pSniffFail).2.2.2.2.2
    { ftype := .regular, exec := false } rfl rfl rfl (by decide)

/-! ## Claim C3 -/

/-- The empty lookup table. -/
def zeroT : String → TagSet := fun _ => ∅

/-- The raw bytes of the line `#!/usr/bin/env python3`. -/
def pyEnvLine : List Nat :=
  [35, 33, 47, 117, 115, 114, 47, 98, 105, 110, 47, 101, 110, 118, 32,
   112, 121, 116, 104, 111, 110, 51]

/-- Path model for claim C3: an executable regular file whose content
starts with the `#!/usr/bin/env python3` line. -/
def pPy (fn : String) (rest : List Nat) : PathModel :=
  { fileName := some fn
    stat := .ok { ftype := .regular, exec := true }
    statFollow := .ok { ftype := .regular, exec := true }
    openFile := .ok (.ok (pyEnvLine ++ 10 :: rest)) }

/-- The shebang pipeline on any stream starting with the
`#!/usr/bin/env python3` line resolves to the single token python3,
whatever follows the newline. -/
lemma parseShebangBytes_pyEnv (rest : List Nat) :
    parseShebangBytes (pyEnvLine ++ 10 :: rest) = ["python3"] := by
  have h10 : 10 ∉ pyEnvLine := by decide
  have hfl : readFirstLineBytes (pyEnvLine ++ 10 :: rest) = pyEnvLine ++ [10] :=
    readFirstLineBytes_append pyEnvLine rest h10
  have hne : pyEnvLine ++ 10 :: rest ≠ [] := by simp [pyEnvLine]
  unfold parseShebangBytes
  rw [if_neg hne, hfl]
  decide

/-- Counterexample to claim C3 as stated: the round-trip file yields
the interpreter entry for python3, which is the pair python/python3,
so the resulting tag set also contains python3 and is not equal to
the claimed four-element set. -/
theorem c3_counterexample :
    tags_from_path zeroT zeroT zeroT get_interpreter_tags (pPy "script" [112]) =
        .ok {"file", "executable", "python", "python3", "text"}
      ∧ ({"file", "executable", "python", "python3", "text"} : TagSet) ≠
          {"file", "executable", "python", "text"} :=
  ⟨by decide, by decide⟩

/-- Claim C3 as amended: for every regular executable file whose
content begins with the line `#!/usr/bin/env python3`, whose filename
resolves to nothing in the name and extension tables, and whose first
1024 content bytes all pass the text heuristic, classification with
the default configuration returns exactly
file, executable, python, python3, text. -/
theorem c3_amended (nT eT bT : String → TagSet) (fn : String) (rest : List Nat)
    (hfn : tags_from_filename nT eT bT fn = ∅)
    (htext : ((pyEnvLine ++ 10 :: rest).take 1024).all isTextByte = true) :
    tags_from_path nT eT bT get_interpreter_tags (pPy fn rest) =
      .ok {"file", "executable", "python", "python3", "text"} := by
  have hpsf : parse_shebang_from_file (pPy fn rest) = .ok ["python3"] :=
    congrArg Except.ok (parseShebangBytes_pyEnv rest)
  have hstep4 : analyze_filename_and_shebang nT eT bT get_interpreter_tags
      (pPy fn rest) true = {"python", "python3"} := by
    have h1 : analyze_filename_and_shebang nT eT bT get_interpreter_tags
        (pPy fn rest) true =
        (if tags_from_filename nT eT bT fn = ∅ then
          (match parse_shebang_from_file (pPy fn rest) with
           | .ok comps =>
             match comps with
             | [] => (∅ : TagSet)
             | c0 :: _ => tags_from_interpreter_t get_interpreter_tags c0
           | .error _ => ∅)
         else tags_from_filename nT eT bT fn) := rfl
    rw [h1, if_pos hfn, hpsf]
    decide
  have hft : file_is_text (pPy fn rest) = .ok true := by
    have h2 : file_is_text (pPy fn rest) =
        .ok (((pyEnvLine ++ 10 :: rest).take 1024).all isTextByte) := rfl
    rw [h2, htext]
  rw [tags_from_path_regular_eq nT eT bT get_interpreter_tags (pPy fn rest)
    { ftype := .regular, exec := true } rfl rfl]
  dsimp only
  rw [hstep4]
  have hace : analyze_content_encoding (pPy fn rest)
      (({"file"} : TagSet) ∪ {"executable"} ∪ {"python", "python3"}) = .ok {"text"} := by
    unfold analyze_content_encoding
    rw [if_neg (by decide), hft]
    rfl
  rw [show (if true then ({"executable"} : TagSet) else {"non-executable"}) =
    {"executable"} from rfl]
  rw [hace]
  decide

/-- Witness for C3 at empty tables and a file holding only the shebang
line. -/
theorem c3_amended_witness :
    tags_from_path zeroT zeroT zeroT get_interpreter_tags (pPy "script" []) =
      .ok {"file", "executable", "python", "python3", "text"} :=
  c3_amended zeroT zeroT zeroT "script" [] (by decide) (by decide)

/-! ## Claim C9: helper lemmas -/

/-- The `TYPE_TAGS` group of tags.rs. -/
def TYPE_TAGS : TagSet := {"directory", "file", "symlink", "socket"}

/-- The `MODE_TAGS` group of tags.rs. -/
def MODE_TAGS : TagSet := {"executable", "non-executable"}

/-- The well-formedness the claim demands of one injected table entry:
no type or mode tags, and at most one encoding tag. -/
def entryOk (ts : TagSet) : Prop :=
  (∀ t ∈ ts, t ∉ TYPE_TAGS ∧ t ∉ MODE_TAGS) ∧ ¬("text" ∈ ts ∧ "binary" ∈ ts)

/-- The version-stripping loop returns the empty set or some
interpreter-table entry. -/
lemma interpLoop_cases (iT : String → TagSet) (fuel : Nat) (cs : List Char) :
    interpLoop iT fuel cs = ∅ ∨ ∃ s, interpLoop iT fuel cs = iT s := by
  induction fuel generalizing cs with
  | zero => exact Or.inl rfl
  | succ n ih =>
    unfold interpLoop
    by_cases h0 : cs = []
    · rw [if_pos h0]
      exact Or.inl rfl
    · rw [if_neg h0]
      dsimp only
      by_cases ht : iT (String.mk cs) = ∅
      · rw [if_pos ht]
        cases hbd : beforeLastDot cs with
        | none => exact Or.inl rfl
        | some pre => exact ih pre
      · rw [if_neg ht]
        exact Or.inr ⟨String.mk cs, rfl⟩

/-- The interpreter resolver returns the empty set or some
interpreter-table entry. -/
lemma tags_from_interpreter_t_cases (iT : String → TagSet) (s : String) :
    tags_from_interpreter_t iT s = ∅ ∨ ∃ s2, tags_from_interpreter_t iT s = iT s2 := by
  unfold tags_from_interpreter_t
  exact interpLoop_cases iT _ _

/-- Every tag in a name-loop result comes from the accumulator or from
some name-table entry. -/
lemma nameLoop_mem (nT : String → TagSet) (l : List String) (acc : TagSet) (t : String)
    (ht : t ∈ nameLoop nT l acc) : t ∈ acc ∨ ∃ s, t ∈ nT s := by
  rw [nameLoop_eq_find] at ht
  cases hf : l.find? (fun c => decide (nT c ≠ ∅)) with
  | none => rw [hf] at ht; exact Or.inl ht
  | some c =>
    rw [hf] at ht
    rcases Finset.mem_union.mp ht with h | h
    · exact Or.inl h
    · exact Or.inr ⟨c, h⟩

/-- Characterisation of `tags_from_filename` as a union of the name
resolution and the extension resolution (shared by claims C1 and
C9). -/
lemma tags_from_filename_eq (nT eT bT : String → TagSet) (filename : String) :
    tags_from_filename nT eT bT filename =
      nameLoop nT (filename :: splitOnChar '.' filename) ∅ ∪
        (match rustExtension filename with
         | none => ∅
         | some ext =>
           if eT (toLowerAscii ext) = ∅ then bT (toLowerAscii ext)
           else eT (toLowerAscii ext)) := by
  unfold tags_from_filename
  dsimp only
  cases hre : rustExtension filename with
  | none => simp
  | some ext =>
    by_cases he : eT (toLowerAscii ext) = ∅
    · by_cases hb : bT (toLowerAscii ext) = ∅
      · simp [he, hb]
      · simp [he, hb]
    · simp [he]

/-- Every tag produced by filename resolution comes from some table
entry. -/
lemma tags_from_filename_mem (nT eT bT : String → TagSet) (filename : String)
    (t : String) (ht : t ∈ tags_from_filename nT eT bT filename) :
    (∃ s, t ∈ nT s) ∨ (∃ s, t ∈ eT s) ∨ (∃ s, t ∈ bT s) := by
  rw [tags_from_filename_eq] at ht
  rcases Finset.mem_union.mp ht with h | h
  · rcases nameLoop_mem nT _ ∅ t h with h2 | h2
    · exact absurd h2 (Finset.not_mem_empty t)
    · exact Or.inl h2
  · cases hre : rustExtension filename with
    | none => rw [hre] at h; exact absurd h (Finset.not_mem_empty t)
    | some ext =>
      rw [hre] at h
      dsimp only at h
      by_cases he : eT (toLowerAscii ext) = ∅
      · rw [if_pos he] at h
        exact Or.inr (Or.inr ⟨toLowerAscii ext, h⟩)
      · rw [if_neg he] at h
        exact Or.inr (Or.inl ⟨toLowerAscii ext, h⟩)

/-- The custom-extension lookup of the configured filename step. -/
def customLookup (cfg : FileIdentifier) (filename : String) : Option TagSet :=
  match cfg.custom_extensions with
  | none => none
  | some m =>
    match rustExtension filename with
    | none => none
    | some ext => m (toLowerAscii ext)

/-- A successful custom lookup names a configured mapping entry. -/
lemma customLookup_some (cfg : FileIdentifier) (filename : String) (ts : TagSet)
    (h : customLookup cfg filename = some ts) :
    ∃ m s, cfg.custom_extensions = some m ∧ m s = some ts := by
  unfold customLookup at h
  cases hce : cfg.custom_extensions with
  | none => rw [hce] at h; cases h
  | some m =>
    rw [hce] at h
    cases hre : rustExtension filename with
    | none => rw [hre] at h; cases h
    | some ext =>
      rw [hre] at h
      exact ⟨m, toLowerAscii ext, rfl, h⟩

/-- The configured filename/shebang step yields the empty set, one
custom entry, one filename resolution, or one interpreter entry. -/
lemma analyze_fns_configured_cases (cfg : FileIdentifier) (nT eT bT iT : String → TagSet)
    (p : PathModel) (e : Bool) :
    analyze_filename_and_shebang_configured cfg nT eT bT iT p e = ∅
      ∨ (∃ m s ts, cfg.custom_extensions = some m ∧ m s = some ts ∧
          analyze_filename_and_shebang_configured cfg nT eT bT iT p e = ts)
      ∨ (∃ fn, analyze_filename_and_shebang_configured cfg nT eT bT iT p e =
          tags_from_filename nT eT bT fn)
      ∨ (∃ s, analyze_filename_and_shebang_configured cfg nT eT bT iT p e = iT s) := by
  unfold analyze_filename_and_shebang_configured
  cases hfn : p.fileName with
  | none => exact Or.inl rfl
  | some fn =>
    dsimp only
    have hch : (match cfg.custom_extensions with
        | none => none
        | some m =>
          match rustExtension fn with
          | none => none
          | some ext => m (toLowerAscii ext)) = customLookup cfg fn := rfl
    rw [hch]
    cases hcl : customLookup cfg fn with
    | some ts =>
      obtain ⟨m, s, hm, hms⟩ := customLookup_some cfg fn ts hcl
      exact Or.inr (Or.inl ⟨m, s, ts, hm, hms, rfl⟩)
    | none =>
      dsimp only
      by_cases hft : tags_from_filename nT eT bT fn = ∅
      · rw [if_pos hft]
        by_cases hex : e = true ∧ cfg.skip_shebang_analysis = false
        · rw [if_pos hex]
          cases hps : parse_shebang_from_file p with
          | error err => exact Or.inl rfl
          | ok comps =>
            cases comps with
            | nil => exact Or.inl rfl
            | cons c0 rest =>
              dsimp only
              rcases tags_from_interpreter_t_cases iT c0 with h | ⟨s2, h⟩
              · rw [h]; exact Or.inl rfl
              · rw [h]; exact Or.inr (Or.inr (Or.inr ⟨s2, rfl⟩))
        · rw [if_neg hex]
          exact Or.inl rfl
      · rw [if_neg hft]
        exact Or.inr (Or.inr (Or.inl ⟨fn, rfl⟩))

/-- Unfolding `identify_with_config` on a failing stat. -/
lemma identify_stat_error (cfg : FileIdentifier) (nT eT bT iT : String → TagSet)
    (p : PathModel) (e : StatError) (he : p.stat = .error e) :
    identify_with_config cfg nT eT bT iT p = .error .pathNotFound := by
  unfold identify_with_config
  rw [he]

/-- Unfolding `identify_with_config` on a non-regular entry. -/
lemma identify_nonregular (cfg : FileIdentifier) (nT eT bT iT : String → TagSet)
    (p : PathModel) (m : FileMeta) (t : TagSet) (hm : p.stat = .ok m)
    (haft : analyze_file_type m = some t) :
    identify_with_config cfg nT eT bT iT p = .ok t := by
  unfold identify_with_config
  rw [hm]
  dsimp only
  rw [haft]

/-- Unfolding `identify_with_config` on a regular file with content
analysis skipped. -/
lemma identify_regular_skip (cfg : FileIdentifier) (nT eT bT iT : String → TagSet)
    (p : PathModel) (m : FileMeta) (hm : p.stat = .ok m) (hreg : m.ftype = .regular)
    (hskip : cfg.skip_content_analysis = true) :
    identify_with_config cfg nT eT bT iT p =
      .ok (({"file"} : TagSet) ∪ (if m.exec then {"executable"} else {"non-executable"})
        ∪ analyze_filename_and_shebang_configured cfg nT eT bT iT p m.exec) := by
  unfold identify_with_config
  rw [hm]
  dsimp only [analyze_permissions]
  rw [(analyze_file_type_none_iff m).mpr hreg]
  dsimp only
  rw [if_pos hskip]

/-- Unfolding `identify_with_config` on a regular file with content
analysis enabled. -/
lemma identify_regular_sniff (cfg : FileIdentifier) (nT eT bT iT : String → TagSet)
    (p : PathModel) (m : FileMeta) (hm : p.stat = .ok m) (hreg : m.ftype = .regular)
    (hskip : cfg.skip_content_analysis = false) :
    identify_with_config cfg nT eT bT iT p =
      match analyze_content_encoding p
          (({"file"} : TagSet) ∪ (if m.exec then {"executable"} else {"non-executable"})
            ∪ analyze_filename_and_shebang_configured cfg nT eT bT iT p m.exec) with
      | .error _ => .error .ioError
      | .ok enc =>
        .ok (({"file"} : TagSet) ∪ (if m.exec then {"executable"} else {"non-executable"})
          ∪ analyze_filename_and_shebang_configured cfg nT eT bT iT p m.exec ∪ enc) := by
  unfold identify_with_config
  rw [hm]
  dsimp only [analyze_permissions]
  rw [(analyze_file_type_none_iff m).mpr hreg]
  dsimp only
  rw [if_neg (by rw [hskip]; exact Bool.false_ne_true)]

/-- The encoding set added by a successful content analysis: empty
when an encoding tag was already present, otherwise one of the two
singletons — and in that case nothing in the existing set was an
encoding tag. -/
lemma analyze_content_encoding_ok_cases (p : PathModel) (existing enc : TagSet)
    (h : analyze_content_encoding p existing = .ok enc) :
    enc = ∅ ∨ ((enc = {"text"} ∨ enc = {"binary"})
      ∧ ¬ ∃ t ∈ existing, t = "binary" ∨ t = "text") := by
  unfold analyze_content_encoding at h
  by_cases hc : ∃ t ∈ existing, t = "binary" ∨ t = "text"
  · rw [if_pos hc] at h
    injection h with h2
    exact Or.inl h2.symm
  · rw [if_neg hc] at h
    cases hft : file_is_text p with
    | error e => rw [hft] at h; cases h
    | ok b =>
      rw [hft] at h
      dsimp only at h
      cases b
      · injection h with h2
        exact Or.inr ⟨Or.inr h2.symm, hc⟩
      · injection h with h2
        exact Or.inr ⟨Or.inl h2.symm, hc⟩

/-- Core of claim C9 on a regular file: with the mode singleton `M`,
the filename-step result `A` (no type or mode tags, at most one
encoding tag) and the sniffed encoding `enc`, the accumulated tag set
satisfies the three group invariants. -/
lemma c9_regular_core (A M enc tags : TagSet)
    (hM : M = {"executable"} ∨ M = {"non-executable"})
    (hA_tm : ∀ t ∈ A, t ∉ TYPE_TAGS ∧ t ∉ MODE_TAGS)
    (hA_enc : ¬("text" ∈ A ∧ "binary" ∈ A))
    (henc : enc = ∅ ∨ ((enc = {"text"} ∨ enc = {"binary"})
      ∧ ¬ ∃ t ∈ ({"file"} : TagSet) ∪ M ∪ A, t = "binary" ∨ t = "text"))
    (htags : tags = ({"file"} : TagSet) ∪ M ∪ A ∪ enc) :
    (∀ t1 ∈ tags, ∀ t2 ∈ tags, t1 ∈ TYPE_TAGS → t2 ∈ TYPE_TAGS → t1 = t2)
      ∧ ("executable" ∈ tags ↔ M = {"executable"})
      ∧ ("non-executable" ∈ tags ↔ M = {"non-executable"})
      ∧ ¬("text" ∈ tags ∧ "binary" ∈ tags)
      ∧ ("text" ∈ tags ↔ "text" ∈ A ∨ "text" ∈ enc)
      ∧ ("binary" ∈ tags ↔ "binary" ∈ A ∨ "binary" ∈ enc) := by
  subst htags
  have hunpack : ∀ t, t ∈ ({"file"} : TagSet) ∪ M ∪ A ∪ enc →
      t = "file" ∨ t ∈ M ∨ t ∈ A ∨ t ∈ enc := by
    intro t ht
    rcases Finset.mem_union.mp ht with h | h
    · rcases Finset.mem_union.mp h with h2 | h2
      · rcases Finset.mem_union.mp h2 with h3 | h3
        · exact Or.inl (Finset.mem_singleton.mp h3)
        · exact Or.inr (Or.inl h3)
      · exact Or.inr (Or.inr (Or.inl h2))
    · exact Or.inr (Or.inr (Or.inr h))
  have hMcases : ∀ t ∈ M, t = "executable" ∨ t = "non-executable" := by
    intro t ht
    rcases hM with h | h <;> rw [h] at ht
    · exact Or.inl (Finset.mem_singleton.mp ht)
    · exact Or.inr (Finset.mem_singleton.mp ht)
  have henccases : ∀ t ∈ enc, t = "text" ∨ t = "binary" := by
    intro t ht
    rcases henc with h | ⟨h2, _⟩
    · rw [h] at ht
      exact absurd ht (Finset.not_mem_empty t)
    · rcases h2 with h3 | h3 <;> rw [h3] at ht
      · exact Or.inl (Finset.mem_singleton.mp ht)
      · exact Or.inr (Finset.mem_singleton.mp ht)
  have htype : ∀ t ∈ ({"file"} : TagSet) ∪ M ∪ A ∪ enc, t ∈ TYPE_TAGS → t = "file" := by
    intro t ht htt
    rcases hunpack t ht with rfl | h | h | h
    · rfl
    · rcases hMcases t h with rfl | rfl <;> exact absurd htt (by decide)
    · exact absurd htt (hA_tm t h).1
    · rcases henccases t h with rfl | rfl <;> exact absurd htt (by decide)
  have hexec_iff : "executable" ∈ ({"file"} : TagSet) ∪ M ∪ A ∪ enc ↔ M = {"executable"} := by
    constructor
    · intro ht
      rcases hunpack "executable" ht with h | h | h | h
      · exact absurd h (by decide)
      · rcases hM with h2 | h2
        · exact h2
        · rw [h2] at h
          exact absurd (Finset.mem_singleton.mp h) (by decide)
      · exact absurd (by decide : "executable" ∈ MODE_TAGS) (hA_tm "executable" h).2
      · rcases henccases "executable" h with h2 | h2 <;> exact absurd h2 (by decide)
    · intro hMe
      refine Finset.mem_union_left _ (Finset.mem_union_left _ (Finset.mem_union_right _ ?_))
      rw [hMe]
      exact Finset.mem_singleton_self "executable"
  have hnonexec_iff : "non-executable" ∈ ({"file"} : TagSet) ∪ M ∪ A ∪ enc ↔
      M = {"non-executable"} := by
    constructor
    · intro ht
      rcases hunpack "non-executable" ht with h | h | h | h
      · exact absurd h (by decide)
      · rcases hM with h2 | h2
        · rw [h2] at h
          exact absurd (Finset.mem_singleton.mp h) (by decide)
        · exact h2
      · exact absurd (by decide : "non-executable" ∈ MODE_TAGS) (hA_tm "non-executable" h).2
      · rcases henccases "non-executable" h with h2 | h2 <;> exact absurd h2 (by decide)
    · intro hMe
      refine Finset.mem_union_left _ (Finset.mem_union_left _ (Finset.mem_union_right _ ?_))
      rw [hMe]
      exact Finset.mem_singleton_self "non-executable"
  have htext_iff : "text" ∈ ({"file"} : TagSet) ∪ M ∪ A ∪ enc ↔
      "text" ∈ A ∨ "text" ∈ enc := by
    constructor
    · intro ht
      rcases hunpack "text" ht with h | h | h | h
      · exact absurd h (by decide)
      · rcases hMcases "text" h with h2 | h2 <;> exact absurd h2 (by decide)
      · exact Or.inl h
      · exact Or.inr h
    · intro h
      rcases h with h | h
      · exact Finset.mem_union_left _ (Finset.mem_union_right _ h)
      · exact Finset.mem_union_right _ h
  have hbin_iff : "binary" ∈ ({"file"} : TagSet) ∪ M ∪ A ∪ enc ↔
      "binary" ∈ A ∨ "binary" ∈ enc := by
    constructor
    · intro ht
      rcases hunpack "binary" ht with h | h | h | h
      · exact absurd h (by decide)
      · rcases hMcases "binary" h with h2 | h2 <;> exact absurd h2 (by decide)
      · exact Or.inl h
      · exact Or.inr h
    · intro h
      rcases h with h | h
      · exact Finset.mem_union_left _ (Finset.mem_union_right _ h)
      · exact Finset.mem_union_right _ h
  refine ⟨?_, hexec_iff, hnonexec_iff, ?_, htext_iff, hbin_iff⟩
  · intro t1 h1 t2 h2 ht1 ht2
    rw [htype t1 h1 ht1, htype t2 h2 ht2]
  · rintro ⟨htx, hbn⟩
    rcases htext_iff.mp htx with hx | hx <;> rcases hbin_iff.mp hbn with hy | hy
    · exact hA_enc ⟨hx, hy⟩
    · rcases henc with h | ⟨h2, hpre⟩
      · rw [h] at hy
        exact absurd hy (Finset.not_mem_empty _)
      · exact hpre ⟨"text", Finset.mem_union_right _ hx, Or.inr rfl⟩
    · rcases henc with h | ⟨h2, hpre⟩
      · rw [h] at hx
        exact absurd hx (Finset.not_mem_empty _)
      · exact hpre ⟨"binary", Finset.mem_union_right _ hy, Or.inl rfl⟩
    · rcases henc with h | ⟨h2, hpre⟩
      · rw [h] at hx
        exact absurd hx (Finset.not_mem_empty _)
      · rcases h2 with h3 | h3 <;> rw [h3] at hx hy
        · exact absurd (Finset.mem_singleton.mp hy) (by decide)
        · exact absurd (Finset.mem_singleton.mp hx) (by decide)

/-- The filename/shebang step is well-formed whenever all injected
tables are: no type or mode tags, and — given that name-table and
extension-table entries never combine to two encoding tags — at most
one encoding tag. -/
lemma step7_entryOk (cfg : FileIdentifier) (nT eT bT iT : String → TagSet)
    (p : PathModel) (e : Bool)
    (htab : ∀ s, entryOk (nT s) ∧ entryOk (eT s) ∧ entryOk (bT s) ∧ entryOk (iT s))
    (hcustom : ∀ m s ts, cfg.custom_extensions = some m → m s = some ts → entryOk ts)
    (hcomb : ∀ fn, ¬("text" ∈ tags_from_filename nT eT bT fn ∧
        "binary" ∈ tags_from_filename nT eT bT fn)) :
    (∀ t ∈ analyze_filename_and_shebang_configured cfg nT eT bT iT p e,
        t ∉ TYPE_TAGS ∧ t ∉ MODE_TAGS)
      ∧ ¬("text" ∈ analyze_filename_and_shebang_configured cfg nT eT bT iT p e
          ∧ "binary" ∈ analyze_filename_and_shebang_configured cfg nT eT bT iT p e) := by
  rcases analyze_fns_configured_cases cfg nT eT bT iT p e with
    h | ⟨m, s, ts, hm, hms, h⟩ | ⟨fn, h⟩ | ⟨s, h⟩ <;> rw [h]
  · exact ⟨fun t ht => absurd ht (Finset.not_mem_empty t),
      fun h2 => absurd h2.1 (Finset.not_mem_empty _)⟩
  · exact ⟨(hcustom m s ts hm hms).1, (hcustom m s ts hm hms).2⟩
  · refine ⟨fun t ht => ?_, hcomb fn⟩
    rcases tags_from_filename_mem nT eT bT fn t ht with ⟨s2, h2⟩ | ⟨s2, h2⟩ | ⟨s2, h2⟩
    · exact (htab s2).1.1 t h2
    · exact (htab s2).2.1.1 t h2
    · exact (htab s2).2.2.1.1 t h2
  · exact ⟨(htab s).2.2.2.1, (htab s).2.2.2.2⟩

/-- Name table for the C9 counterexample: a name entry carrying text. -/
def nTenc : String → TagSet := fun s => if s = "a.xyz" then {"text"} else ∅

/-- Extension table for the C9 counterexample: an extension entry
carrying binary. -/
def eTenc : String → TagSet := fun s => if s = "xyz" then {"binary"} else ∅

/-- Path model for the C9 counterexample: a stat-able non-executable
regular file named a.xyz. -/
def pEncConflict : PathModel :=
  { fileName := some "a.xyz"
    stat := .ok { ftype := .regular, exec := false }
    statFollow := .ok { ftype := .regular, exec := false }
    openFile := .error () }

/-- Counterexample to claim C9 as stated: each injected table entry
contains no type or mode tags and at most one encoding tag (the name
entry for a.xyz is exactly the singleton text, the extension entry for
xyz exactly the singleton binary, all other entries empty), yet the
classification result carries both encoding tags, because the name
match and the extension match are unioned by `tags_from_filename`. -/
theorem c9_counterexample :
    identify_with_config FileIdentifier.new nTenc eTenc zeroT get_interpreter_tags
        pEncConflict = .ok {"file", "non-executable", "text", "binary"}
      ∧ "text" ∈ ({"file", "non-executable", "text", "binary"} : TagSet)
      ∧ "binary" ∈ ({"file", "non-executable", "text", "binary"} : TagSet)
      ∧ nTenc "a.xyz" = {"text"}
      ∧ eTenc "xyz" = {"binary"} :=
  ⟨by decide, by decide, by decide, by decide, by decide⟩

/-- Claim C9 as amended: under the stated per-entry precondition plus
the needed strengthening that the name-table and extension-table
entries combined for any single filename supply at most one encoding
tag, every successful classification result has at most one type tag;
exactly one mode tag when the subject is a regular file and none
otherwise; and at most one encoding tag — with the encoding tags, when
content analysis is skipped, being exactly those supplied by the
filename/shebang step. -/
theorem c9_tag_group_invariants (cfg : FileIdentifier) (nT eT bT iT : String → TagSet)
    (p : PathModel) (tags : TagSet)
    (htab : ∀ s, entryOk (nT s) ∧ entryOk (eT s) ∧ entryOk (bT s) ∧ entryOk (iT s))
    (hcustom : ∀ m s ts, cfg.custom_extensions = some m → m s = some ts → entryOk ts)
    (hcomb : ∀ fn, ¬("text" ∈ tags_from_filename nT eT bT fn ∧
        "binary" ∈ tags_from_filename nT eT bT fn))
    (hok : identify_with_config cfg nT eT bT iT p = .ok tags) :
    (∀ t1 ∈ tags, ∀ t2 ∈ tags, t1 ∈ TYPE_TAGS → t2 ∈ TYPE_TAGS → t1 = t2)
      ∧ (∀ m, p.stat = .ok m → m.ftype = .regular →
          (("executable" ∈ tags ∧ "non-executable" ∉ tags)
            ∨ ("non-executable" ∈ tags ∧ "executable" ∉ tags)))
      ∧ (∀ m, p.stat = .ok m → m.ftype ≠ .regular →
          "executable" ∉ tags ∧ "non-executable" ∉ tags)
      ∧ ¬("text" ∈ tags ∧ "binary" ∈ tags)
      ∧ (∀ m, p.stat = .ok m → m.ftype = .regular →
          cfg.skip_content_analysis = true →
          (("text" ∈ tags ↔
              "text" ∈ analyze_filename_and_shebang_configured cfg nT eT bT iT p m.exec)
            ∧ ("binary" ∈ tags ↔
              "binary" ∈ analyze_filename_and_shebang_configured cfg nT eT bT iT p m.exec))) := by
  cases hstat : p.stat with
  | error e =>
    rw [identify_stat_error cfg nT eT bT iT p e hstat] at hok
    cases hok
  | ok m =>
    obtain ⟨ftype, mexec⟩ := m
    cases hftc : ftype with
    | regular =>
      subst hftc
      have haft : analyze_file_type ⟨.regular, mexec⟩ = none := rfl
      obtain ⟨hA_tm, hA_enc⟩ := step7_entryOk cfg nT eT bT iT p mexec htab hcustom hcomb
      -- split on the executable bit so that the mode singleton is literal
      cases mexec with
      | true =>
        have hA_tm2 : ∀ t ∈ analyze_filename_and_shebang_configured cfg nT eT bT iT p true,
            t ∉ TYPE_TAGS ∧ t ∉ MODE_TAGS := hA_tm
        have hA_enc2 : ¬("text" ∈ analyze_filename_and_shebang_configured cfg nT eT bT iT p true
            ∧ "binary" ∈ analyze_filename_and_shebang_configured cfg nT eT bT iT p true) := hA_enc
        cases hskip : cfg.skip_content_analysis with
        | true =>
          rw [identify_regular_skip cfg nT eT bT iT p ⟨.regular, true⟩ hstat rfl hskip] at hok
          injection hok with h
          have h2 : (({"file"} : TagSet) ∪ {"executable"}
              ∪ analyze_filename_and_shebang_configured cfg nT eT bT iT p true) = tags := h
          have htags : tags = ({"file"} : TagSet) ∪ {"executable"}
              ∪ analyze_filename_and_shebang_configured cfg nT eT bT iT p true ∪ ∅ := by
            rw [Finset.union_empty]
            exact h2.symm
          obtain ⟨ctype, cex, cnon, cenc, ctext, cbin⟩ :=
            c9_regular_core (analyze_filename_and_shebang_configured cfg nT eT bT iT p true)
              {"executable"} ∅ tags (Or.inl rfl) hA_tm2 hA_enc2 (Or.inl rfl) htags
          refine ⟨ctype, ?_, ?_, cenc, ?_⟩
          · intro m2 hm2 _
            exact Or.inl ⟨cex.mpr rfl, fun hmem => absurd (cnon.mp hmem) (by decide)⟩
          · intro m2 hm2 hnreg
            injection hm2 with h3
            subst h3
            exact absurd rfl hnreg
          · intro m2 hm2 hreg2 _
            injection hm2 with h3
            subst h3
            constructor
            · constructor
              · intro hx
                rcases ctext.mp hx with h4 | h4
                · exact h4
                · exact absurd h4 (Finset.not_mem_empty _)
              · intro hx
                exact ctext.mpr (Or.inl hx)
            · constructor
              · intro hx
                rcases cbin.mp hx with h4 | h4
                · exact h4
                · exact absurd h4 (Finset.not_mem_empty _)
              · intro hx
                exact cbin.mpr (Or.inl hx)
        | false =>
          rw [identify_regular_sniff cfg nT eT bT iT p ⟨.regular, true⟩ hstat rfl hskip] at hok
          have hok2 : (match analyze_content_encoding p (({"file"} : TagSet) ∪ {"executable"}
                ∪ analyze_filename_and_shebang_configured cfg nT eT bT iT p true) with
              | .error _ => Except.error IdentifyError.ioError
              | .ok enc =>
                Except.ok (({"file"} : TagSet) ∪ {"executable"}
                  ∪ analyze_filename_and_shebang_configured cfg nT eT bT iT p true ∪ enc)) =
              .ok tags := hok
          cases hace : analyze_content_encoding p (({"file"} : TagSet) ∪ {"executable"}
              ∪ analyze_filename_and_shebang_configured cfg nT eT bT iT p true) with
          | error e2 =>
            rw [hace] at hok2
            cases hok2
          | ok enc =>
            rw [hace] at hok2
            dsimp only at hok2
            injection hok2 with h
            have henc := analyze_content_encoding_ok_cases p _ enc hace
            obtain ⟨ctype, cex, cnon, cenc, ctext, cbin⟩ :=
              c9_regular_core (analyze_filename_and_shebang_configured cfg nT eT bT iT p true)
                {"executable"} enc tags (Or.inl rfl) hA_tm2 hA_enc2 henc h.symm
            refine ⟨ctype, ?_, ?_, cenc, ?_⟩
            · intro m2 hm2 _
              exact Or.inl ⟨cex.mpr rfl, fun hmem => absurd (cnon.mp hmem) (by decide)⟩
            · intro m2 hm2 hnreg
              injection hm2 with h3
              subst h3
              exact absurd rfl hnreg
            · intro m2 hm2 hreg2 hskip2
              exact absurd hskip2 (by decide)
      | false =>
        have hA_tm2 : ∀ t ∈ analyze_filename_and_shebang_configured cfg nT eT bT iT p false,
            t ∉ TYPE_TAGS ∧ t ∉ MODE_TAGS := hA_tm
        have hA_enc2 : ¬("text" ∈ analyze_filename_and_shebang_configured cfg nT eT bT iT p false
            ∧ "binary" ∈ analyze_filename_and_shebang_configured cfg nT eT bT iT p false) := hA_enc
        cases hskip : cfg.skip_content_analysis with
        | true =>
          rw [identify_regular_skip cfg nT eT bT iT p ⟨.regular, false⟩ hstat rfl hskip] at hok
          injection hok with h
          have h2 : (({"file"} : TagSet) ∪ {"non-executable"}
              ∪ analyze_filename_and_shebang_configured cfg nT eT bT iT p false) = tags := h
          have htags : tags = ({"file"} : TagSet) ∪ {"non-executable"}
              ∪ analyze_filename_and_shebang_configured cfg nT eT bT iT p false ∪ ∅ := by
            rw [Finset.union_empty]
            exact h2.symm
          obtain ⟨ctype, cex, cnon, cenc, ctext, cbin⟩ :=
            c9_regular_core (analyze_filename_and_shebang_configured cfg nT eT bT iT p false)
              {"non-executable"} ∅ tags (Or.inr rfl) hA_tm2 hA_enc2 (Or.inl rfl) htags
          refine ⟨ctype, ?_, ?_, cenc, ?_⟩
          · intro m2 hm2 _
            exact Or.inr ⟨cnon.mpr rfl, fun hmem => absurd (cex.mp hmem) (by decide)⟩
          · intro m2 hm2 hnreg
            injection hm2 with h3
            subst h3
            exact absurd rfl hnreg
          · intro m2 hm2 hreg2 _
            injection hm2 with h3
            subst h3
            constructor
            · constructor
              · intro hx
                rcases ctext.mp hx with h4 | h4
                · exact h4
                · exact absurd h4 (Finset.not_mem_empty _)
              · intro hx
                exact ctext.mpr (Or.inl hx)
            · constructor
              · intro hx
                rcases cbin.mp hx with h4 | h4
                · exact h4
                · exact absurd h4 (Finset.not_mem_empty _)
              · intro hx
                exact cbin.mpr (Or.inl hx)
        | false =>
          rw [identify_regular_sniff cfg nT eT bT iT p ⟨.regular, false⟩ hstat rfl hskip] at hok
          have hok2 : (match analyze_content_encoding p (({"file"} : TagSet) ∪ {"non-executable"}
                ∪ analyze_filename_and_shebang_configured cfg nT eT bT iT p false) with
              | .error _ => Except.error IdentifyError.ioError
              | .ok enc =>
                Except.ok (({"file"} : TagSet) ∪ {"non-executable"}
                  ∪ analyze_filename_and_shebang_configured cfg nT eT bT iT p false ∪ enc)) =
              .ok tags := hok
          cases hace : analyze_content_encoding p (({"file"} : TagSet) ∪ {"non-executable"}
              ∪ analyze_filename_and_shebang_configured cfg nT eT bT iT p false) with
          | error e2 =>
            rw [hace] at hok2
            cases hok2
          | ok enc =>
            rw [hace] at hok2
            dsimp only at hok2
            injection hok2 with h
            have henc := analyze_content_encoding_ok_cases p _ enc hace
            obtain ⟨ctype, cex, cnon, cenc, ctext, cbin⟩ :=
              c9_regular_core (analyze_filename_and_shebang_configured cfg nT eT bT iT p false)
                {"non-executable"} enc tags (Or.inr rfl) hA_tm2 hA_enc2 henc h.symm
            refine ⟨ctype, ?_, ?_, cenc, ?_⟩
            · intro m2 hm2 _
              exact Or.inr ⟨cnon.mpr rfl, fun hmem => absurd (cex.mp hmem) (by decide)⟩
            · intro m2 hm2 hnreg
              injection hm2 with h3
              subst h3
              exact absurd rfl hnreg
            · intro m2 hm2 hreg2 hskip2
              exact absurd hskip2 (by decide)
    | directory =>
      subst hftc
      have haft : analyze_file_type ⟨.directory, mexec⟩ = some {"directory"} := rfl
      rw [identify_nonregular cfg nT eT bT iT p ⟨.directory, mexec⟩ {"directory"} hstat haft]
        at hok
      injection hok with htag
      subst htag
      refine ⟨?_, ?_, ?_, ?_, ?_⟩
      · intro t1 h1 t2 h2 _ _
        rw [Finset.mem_singleton.mp h1, Finset.mem_singleton.mp h2]
      · intro m2 hm2 hreg2
        injection hm2 with h3
        subst h3
        exact FileType.noConfusion hreg2
      · intro m2 hm2 _
        exact ⟨by decide, by decide⟩
      · rintro ⟨h1, _⟩
        exact absurd h1 (by decide)
      · intro m2 hm2 hreg2 _
        injection hm2 with h3
        subst h3
        exact FileType.noConfusion hreg2
    | symlink =>
      subst hftc
      have haft : analyze_file_type ⟨.symlink, mexec⟩ = some {"symlink"} := rfl
      rw [identify_nonregular cfg nT eT bT iT p ⟨.symlink, mexec⟩ {"symlink"} hstat haft]
        at hok
      injection hok with htag
      subst htag
      refine ⟨?_, ?_, ?_, ?_, ?_⟩
      · intro t1 h1 t2 h2 _ _
        rw [Finset.mem_singleton.mp h1, Finset.mem_singleton.mp h2]
      · intro m2 hm2 hreg2
        injection hm2 with h3
        subst h3
        exact FileType.noConfusion hreg2
      · intro m2 hm2 _
        exact ⟨by decide, by decide⟩
      · rintro ⟨h1, _⟩
        exact absurd h1 (by decide)
      · intro m2 hm2 hreg2 _
        injection hm2 with h3
        subst h3
        exact FileType.noConfusion hreg2
    | socket =>
      subst hftc
      have haft : analyze_file_type ⟨.socket, mexec⟩ = some {"socket"} := rfl
      rw [identify_nonregular cfg nT eT bT iT p ⟨.socket, mexec⟩ {"socket"} hstat haft]
        at hok
      injection hok with htag
      subst htag
      refine ⟨?_, ?_, ?_, ?_, ?_⟩
      · intro t1 h1 t2 h2 _ _
        rw [Finset.mem_singleton.mp h1, Finset.mem_singleton.mp h2]
      · intro m2 hm2 hreg2
        injection hm2 with h3
        subst h3
        exact FileType.noConfusion hreg2
      · intro m2 hm2 _
        exact ⟨by decide, by decide⟩
      · rintro ⟨h1, _⟩
        exact absurd h1 (by decide)
      · intro m2 hm2 hreg2 _
        injection hm2 with h3
        subst h3
        exact FileType.noConfusion hreg2

/-- Every entry of the empty table is well-formed. -/
lemma entryOk_empty : entryOk (∅ : TagSet) :=
  ⟨fun t ht => absurd ht (Finset.not_mem_empty t),
   fun h => absurd h.1 (Finset.not_mem_empty _)⟩

/-- Filename resolution over all-empty tables yields nothing. -/
lemma tags_from_filename_zero (fn : String) :
    tags_from_filename zeroT zeroT zeroT fn = ∅ := by
  rw [tags_from_filename_eq]
  have h1 : nameLoop zeroT (fn :: splitOnChar '.' fn) ∅ = ∅ := by
    rw [nameLoop_eq_find]
    have h2 : (fn :: splitOnChar '.' fn).find? (fun c => decide (zeroT c ≠ ∅)) = none := by
      refine List.find?_eq_none.mpr (fun x _ => ?_)
      simp [zeroT]
    rw [h2]
  rw [h1]
  cases hre : rustExtension fn with
  | none => simp
  | some ext => simp [zeroT]

/-- Path model for the C9 witness: a directory. -/
def pDir : PathModel :=
  { fileName := some "d"
    stat := .ok { ftype := .directory, exec := false }
    statFollow := .error ()
    openFile := .error () }

/-- Witness for C9, instantiating the invariant theorem at empty
tables, the default configuration and a directory: the result set
carries at most one encoding tag. -/
theorem c9_tag_group_invariants_witness :
    ¬(("text" : String) ∈ ({"directory"} : TagSet)
      ∧ ("binary" : String) ∈ ({"directory"} : TagSet)) :=
  (c9_tag_group_invariants FileIdentifier.new zeroT zeroT zeroT zeroT pDir {"directory"}
    (fun _ => ⟨entryOk_empty, entryOk_empty, entryOk_empty, entryOk_empty⟩)
    (fun m s ts hm _ =>
      Option.noConfusion (show (none : Option (String → Option TagSet)) = some m from hm))
    (fun fn => by
      rw [tags_from_filename_zero]
      rintro ⟨h, _⟩
      exact absurd h (Finset.not_mem_empty _))
    (by decide)).2.2.2.1

end FileIdentify
